import Mathlib

/-!
Verification of the core reactive runtime (scopes, arenas, signals, effects,
memos) against its specification.  Each Rust function under scrutiny is
shallowly embedded as an executable Lean definition that mirrors the source
line by line; machine addresses (raw pointers used as identities) are
modelled as natural numbers, heterogeneous owned values as labels, and
panics as explicit error values.
-/

/-! ## Arena (packages/sycamore-reactive/src/arena.rs)

A `ScopeArena` is an append-only container; `inner` holds the labels of the
allocated entries in insertion order (the Rust `Vec<*mut dyn ReallyAny>`).
-/

structure ScopeArena where
  inner : List Nat
  deriving DecidableEq, Repr

/-- Embeds `ScopeArena::alloc`: `self.inner` is append only, the new entry is
pushed at the end. -/
def ScopeArena.alloc (a : ScopeArena) (v : Nat) : ScopeArena :=
  { inner := a.inner ++ [v] }

/-- Embeds `ScopeArena::dispose`: `for &ptr in &*self.inner.get() { drop(..) }`
walks `inner` from the front, so the first component (the destructor
invocation order) is `a.inner` in its stored order; afterwards
`mem::take(&mut *self.inner.get())` empties the container. -/
def ScopeArena.dispose (a : ScopeArena) : List Nat × ScopeArena :=
  (a.inner, { inner := [] })

/-! ## Context lookup (src/context.rs)

A scope chain for `try_use_context`: each scope holds a type-keyed context
map (`HashMap<TypeId, *mut dyn Any>`, modelled as an association list) and an
optional parent. -/

inductive CtxScope where
  | mk (contexts : List (Nat × Nat)) (parent : Option CtxScope)

def CtxScope.contexts : CtxScope → List (Nat × Nat)
  | .mk cs _ => cs

def CtxScope.parent : CtxScope → Option CtxScope
  | .mk _ p => p

/-- Embeds `self.contexts.borrow_mut().get(&type_id)`. -/
def findContext : List (Nat × Nat) → Nat → Option Nat
  | [], _ => none
  | (k, v) :: rest, t => if k = t then some v else findContext rest t

/-- Embeds the loop of `Scope::try_use_context`:

    let this = Some(self);
    while let Some(current) = this {
        if let Some(value) = current.contexts.borrow_mut().get(&type_id) {
            return Some(data);
        }
    }
    None

The loop variable `this` is never reassigned in the source (no
`this = current.parent` statement exists), so every iteration re-examines
the same scope.  `gas` counts loop iterations; a `none` result means the
loop has not terminated within `gas` iterations. -/
def tryUseContextGas (typeId : Nat) (this : Option CtxScope) : Nat → Option (Option Nat)
  | 0 => none
  | gas + 1 =>
    match this with
    | none => some none
    | some current =>
      match findContext current.contexts typeId with
      | some v => some (some v)
      | none => tryUseContextGas typeId this gas

/-! ## SignalEmitter (src/signal.rs)

`SignalEmitter` wraps an `IndexMap<EffectCallbackPtr, WeakEffectCallback>`:
an insertion-ordered map keyed by the raw address of the callback cell.  An
entry is modelled by the key (`ptr`), whether the weak handle still upgrades
(`live`), and whether the callback cell is currently mutably borrowed
(`busy`). -/

structure Subscriber where
  ptr : Nat
  live : Bool
  busy : Bool
  deriving DecidableEq, Repr

/-- Key membership in the insertion-ordered map (`IndexMap::contains_key`). -/
def keyMem : List Subscriber → Nat → Bool
  | [], _ => false
  | s :: rest, p => if s.ptr = p then true else keyMem rest p

/-- Embeds `SignalEmitter::subscribe`, i.e. `IndexMap::insert` keyed by
`cb.as_ptr()`: an existing key keeps its position and gets the new value, a
fresh key is appended at the end. -/
def subscribeIM (m : List Subscriber) (s : Subscriber) : List Subscriber :=
  if keyMem m s.ptr then m.map (fun t => if t.ptr = s.ptr then s else t)
  else m ++ [s]

/-- Embeds `SignalEmitter::unsubscribe`, i.e. `IndexMap::remove` (the
swap-remove variant): the entry with the matching key is overwritten by the
last entry and the last slot is popped; a missing key is a no-op. -/
def unsubscribeIM : List Subscriber → Nat → List Subscriber
  | [], _ => []
  | s :: rest, p =>
    if s.ptr = p then
      match rest.getLast? with
      | none => []
      | some last => last :: rest.dropLast
    else s :: unsubscribeIM rest p

/-- Embeds `SignalEmitter::trigger_subscribers`: clone the map (snapshot),
walk `subscribers.values().rev()` (reverse insertion order), upgrade each
weak handle (`live`), `try_borrow_mut` the callback cell (skip when `busy`),
and invoke.  The result is the list of invoked callback identities in
invocation order. -/
def triggerSubscribersOrder (m : List Subscriber) : List Nat :=
  ((m.reverse).filter (fun s => s.live && !s.busy)).map (fun s => s.ptr)

/-! ## Signal (src/signal.rs)

`Signal<T>` pairs a value cell with a `SignalEmitter`.  Each write-style
operation below returns the updated signal together with the list of
callback identities that `trigger_subscribers` invoked during the call
(empty when `trigger_subscribers` is not called at all). -/

structure SignalS (T : Type) where
  value : T
  emitter : List Subscriber

/-- Embeds `ReadSignal::get` (the returned value; the `track` side effect on
the effect stack is modelled in the effect section). -/
def SignalS.get {T : Type} (s : SignalS T) : T := s.value

/-- Embeds `ReadSignal::get_untracked`. -/
def SignalS.getUntracked {T : Type} (s : SignalS T) : T := s.value

/-- Embeds `Signal::set`: replace the value, then `trigger_subscribers`. -/
def SignalS.set {T : Type} (s : SignalS T) (v : T) : SignalS T × List Nat :=
  ({ value := v, emitter := s.emitter }, triggerSubscribersOrder s.emitter)

/-- Embeds `Signal::set_silent`: replace the value and nothing else. -/
def SignalS.setSilent {T : Type} (s : SignalS T) (v : T) : SignalS T × List Nat :=
  ({ value := v, emitter := s.emitter }, [])

/-- Embeds `Signal::take`: `RefCell::take` the value (leaving `default`),
then `trigger_subscribers`; returns the old value as well. -/
def SignalS.take {T : Type} [Inhabited T] (s : SignalS T) :
    T × SignalS T × List Nat :=
  (s.value, { value := default, emitter := s.emitter },
    triggerSubscribersOrder s.emitter)

/-- Embeds `Signal::take_silent`: `RefCell::take` the value and nothing
else. -/
def SignalS.takeSilent {T : Type} [Inhabited T] (s : SignalS T) :
    T × SignalS T × List Nat :=
  (s.value, { value := default, emitter := s.emitter }, [])

/-! ## Effect callback (src/effect.rs)

The state visible to one run of the callback created in
`Scope::create_effect`:

* `stack` - the thread-local `EFFECTS` stack of effect-state addresses;
* `cell` - the shared `Rc<RefCell<Option<EffectState>>>`, holding the
  dependency set of the effect when it is at rest (`none` while a run is in
  flight, because the state is taken out of the cell);
* `subs` - the subscriber map of every emitter, indexed by emitter
  identity.

The user function is abstracted as `Except Unit (List Nat)`: either it
panics, or it returns the list of emitter identities its `track()` calls
recorded (in call order, duplicates allowed). -/

structure CbState where
  stack : List Nat
  cell : Option (List Nat)
  subs : Nat → List Subscriber

/-- Outcome of one callback run: normal return, or a propagating panic (with
the state at the moment the panic leaves the callback body). -/
inductive RunResult where
  | ok (st : CbState)
  | panicked (st : CbState)

def RunResult.stackOf : RunResult → List Nat
  | .ok st => st.stack
  | .panicked st => st.stack

def RunResult.cellOf : RunResult → Option (List Nat)
  | .ok st => st.cell
  | .panicked st => st.cell

/-- Embeds `EffectState::clear_dependencies`: for each recorded dependency,
`dependency.0.unsubscribe(Rc::as_ptr(&self.cb))`; the dependency set itself
is cleared by the caller taking the new (empty, then rebuilt) set. -/
def clearDependencies (subs : Nat → List Subscriber) (cbPtr : Nat)
    (deps : List Nat) : Nat → List Subscriber :=
  deps.foldl (fun m d => fun e => if e = d then unsubscribeIM (m e) cbPtr else m e) subs

/-- Embeds the re-subscription loop after the run: for each emitter in
`boxed.dependencies`, `emitter.0.subscribe(Rc::downgrade(&boxed.cb))`.  The
freshly subscribed weak handle upgrades (`live`) and the callback cell is no
longer borrowed (`not busy`). -/
def subscribeAll (subs : Nat → List Subscriber) (cbPtr : Nat)
    (deps : List Nat) : Nat → List Subscriber :=
  deps.foldl (fun m d => fun e => if e = d then subscribeIM (m e) ⟨cbPtr, true, false⟩ else m e) subs

/-- Embeds the body of the callback closure in `Scope::create_effect`
(effect.rs lines 74-113): record the initial stack length, take the
`EffectState` out of the shared cell (`unwrap`), clear its dependencies,
push the state onto `EFFECTS`, run the user function, pop the stack,
re-subscribe the newly recorded dependencies, and put the state back into
the cell.  There is no unwind guard in the source: when the user function
panics, everything after the call - the pop, the re-subscription, the
restore of the cell - is skipped and the panic propagates with the stack
still holding the pushed entry.  `ptr` is the address of the boxed
`EffectState`, `cbPtr` the address of the callback cell (the identity used
in subscriber maps), and the tracked reads of the run are
`HashSet`-collected, hence deduplicated. -/
def effectCallback (ptr cbPtr : Nat) (f : Except Unit (List Nat))
    (st : CbState) : RunResult :=
  match st.cell with
  | none => RunResult.panicked st
  | some oldDeps =>
    let subs1 := clearDependencies st.subs cbPtr oldDeps
    let pushed := st.stack ++ [ptr]
    match f with
    | Except.error _ =>
      RunResult.panicked { stack := pushed, cell := none, subs := subs1 }
    | Except.ok reads =>
      let newDeps := reads.dedup
      RunResult.ok
        { stack := pushed.dropLast
          cell := some newDeps
          subs := subscribeAll subs1 cbPtr newDeps }

/-! ## Reentrant triggering (src/signal.rs `trigger_subscribers` +
src/effect.rs)

A small operational model of a whole trigger cycle, to settle termination of
reentrant writes.  `bodies c` is the action list of the callback with
identity `c` (what the user function does when invoked); `subsOf e` is the
subscriber key list of emitter `e` in insertion order; `busy` is the set of
callbacks currently on the call stack (their cells are mutably borrowed, so
`try_borrow_mut` fails for them and `trigger_subscribers` skips them).  The
interpreter counts callback invocations; `fuel` bounds the callback nesting
depth and a `none` result means the cycle did not finish within that depth -
so a result of the form `some n` for a fixed `n` at every sufficiently large
`fuel` certifies that the cycle terminates. -/

inductive SAction where
  | read (e : Nat)
  | write (e : Nat)
  deriving DecidableEq, Repr

/-- One trigger cycle.  `Sum.inl subs` walks the (already reversed) snapshot
of a subscriber list, invoking each callback that is not busy; `Sum.inr
acts` runs the remaining actions of a callback body, where a write to `e`
recursively triggers the subscribers of `e` (reversed snapshot) with the
current callback kept busy for the duration of its own run. -/
def execTrigger (bodies : Nat → List SAction) (subsOf : Nat → List Nat) :
    Nat → List Nat → List Nat ⊕ List SAction → Option Nat
  | _, _, Sum.inl [] => some 0
  | fuel, busy, Sum.inl (c :: rest) =>
    if c ∈ busy then execTrigger bodies subsOf fuel busy (Sum.inl rest)
    else
      match fuel with
      | 0 => none
      | fuel' + 1 =>
        match execTrigger bodies subsOf fuel' (c :: busy) (Sum.inr (bodies c)) with
        | none => none
        | some n =>
          match execTrigger bodies subsOf (fuel' + 1) busy (Sum.inl rest) with
          | none => none
          | some m => some (n + 1 + m)
  | _, _, Sum.inr [] => some 0
  | fuel, busy, Sum.inr (SAction.read _ :: rest) =>
    execTrigger bodies subsOf fuel busy (Sum.inr rest)
  | fuel, busy, Sum.inr (SAction.write e :: rest) =>
    match execTrigger bodies subsOf fuel busy (Sum.inl (subsOf e).reverse) with
    | none => none
    | some n =>
      match execTrigger bodies subsOf fuel busy (Sum.inr rest) with
      | none => none
      | some m => some (n + m)
  termination_by fuel _ x =>
    (fuel, (match x with | Sum.inl _ => 0 | Sum.inr _ => 1),
      (match x with | Sum.inl l => l.length | Sum.inr a => a.length))

/-! ## Scope disposal (src/lib.rs `Scope::dispose`,
`Scope::create_child_scope`)

A scope owns child scopes, effect handles, cleanup callbacks, context values
and an arena; all are labelled by naturals stored in their insertion order.
`dispose` (lib.rs lines 239-262) runs, in source order: recursive disposal
of the children (depth-first), dropping the effect handles, running the
cleanup callbacks inside `untrack` (so with dependency tracking disabled),
dropping the context values, and finally `self.arena.dispose()`.  Every
container is emptied with `RefCell::take`, so a disposed scope holds
nothing. -/

inductive SScope where
  | mk (children : List SScope) (effects : List Nat) (cleanups : List Nat)
      (contexts : List Nat) (arena : List Nat)

/-- A destruction event; `cleanupRun` records whether dependency tracking
was enabled while the callback ran. -/
inductive DEvent where
  | effectDrop (i : Nat)
  | cleanupRun (i : Nat) (tracked : Bool)
  | contextDrop (i : Nat)
  | arenaDrop (i : Nat)
  deriving DecidableEq, Repr

mutual

/-- The sequence of destruction events produced by `Scope::dispose`, in
execution order.  Cleanups run inside `untrack`, hence `tracked := false`;
the arena entries are dropped in the order `ScopeArena::dispose` walks them
(front to back). -/
def SScope.disposeTrace : SScope → List DEvent
  | .mk children effects cleanups contexts arena =>
    disposeChildrenTrace children
      ++ effects.map DEvent.effectDrop
      ++ cleanups.map (fun i => DEvent.cleanupRun i false)
      ++ contexts.map DEvent.contextDrop
      ++ arena.map DEvent.arenaDrop

/-- The `for &i in self.child_scopes.take().values() { ctx.dispose() }` loop:
children disposed in order, each one completely (depth-first). -/
def disposeChildrenTrace : List SScope → List DEvent
  | [] => []
  | c :: rest => SScope.disposeTrace c ++ disposeChildrenTrace rest

end

/-- Embeds `Scope::dispose` as a state transformer: the destruction events
plus the scope afterwards.  All five containers were emptied by
`RefCell::take` (respectively by the arena clearing its vector), so the
resulting scope owns nothing. -/
def SScope.dispose (s : SScope) : List DEvent × SScope :=
  (s.disposeTrace, SScope.mk [] [] [] [] [])

/-- Embeds `SlotMap::remove` on the child-scope map of the parent
(association list keyed by the slot key): returns the removed scope and the
remaining map, or `none` when the key is absent. -/
def removeKey : List (Nat × SScope) → Nat → Option (SScope × List (Nat × SScope))
  | [], _ => none
  | (k, s) :: rest, key =>
    if k = key then some (s, rest)
    else
      match removeKey rest key with
      | none => none
      | some (s', rest') => some (s', (k, s) :: rest')

/-- Embeds the body of the disposer closure returned by
`Scope::create_child_scope` (lib.rs lines 218-227):

    let ctx = this.child_scopes.borrow_mut().remove(key).unwrap();
    let ctx = unsafe { Box::from_raw(ctx) };
    unsafe { ctx.dispose(); }

When the key is no longer in the map, `remove` returns `None` and the
`unwrap` panics (modelled as `Except.error`).  On success the result is the
remaining child map and the destruction events of the disposed child. -/
def childDisposer (key : Nat) (m : List (Nat × SScope)) :
    Except String (List (Nat × SScope) × List DEvent) :=
  match removeKey m key with
  | none => Except.error "called Option::unwrap() on a None value"
  | some (ctx, m') => Except.ok (m', (ctx.dispose).1)

/-! ## Memo / selector (src/memo.rs)

The effect body installed by `Ctx::create_selector_with(f, eq_f)`:

    if let Some(signal) = signal.get() {
        let new = f();
        if !eq_f(&new, &*signal.get()) {
            signal.set(f())
        }
    } else {
        signal.set(Some(self.create_signal(f())))
    }

The user function `f` may be impure, so it is modelled as a function of its
own invocation count: the n-th call (0-based) returns `f n`.  `SelState`
holds the contents of the output signal (`none` before the seeding run) and
the number of times `f` has been invoked so far. -/

structure SelState (U : Type) where
  stored : Option U
  evals : Nat

/-- One run of the selector effect body. -/
def selectorEffectBody {U : Type} (f : Nat → U) (eqF : U → U → Bool)
    (st : SelState U) : SelState U :=
  match st.stored with
  | some old =>
    let new := f st.evals
    if !eqF new old then { stored := some (f (st.evals + 1)), evals := st.evals + 2 }
    else { stored := some old, evals := st.evals + 1 }
  | none => { stored := some (f st.evals), evals := st.evals + 1 }

/-- Embeds `Ctx::create_memo`: `create_selector_with(f, |_, _| false)`. -/
def memoEffectBody {U : Type} (f : Nat → U) (st : SelState U) : SelState U :=
  selectorEffectBody f (fun _ _ => false) st

/-! ## Helper lemmas -/

theorem foldl_alloc_inner (vs : List Nat) (a : ScopeArena) :
    (vs.foldl ScopeArena.alloc a).inner = a.inner ++ vs := by
  induction vs generalizing a with
  | nil => simp
  | cons v rest ih => simp [ih, ScopeArena.alloc]

theorem keyMem_iff (m : List Subscriber) (p : Nat) :
    keyMem m p = true ↔ p ∈ m.map (fun s => s.ptr) := by
  induction m with
  | nil => simp [keyMem]
  | cons s rest ih =>
    by_cases h : s.ptr = p
    · simp [keyMem, h]
    · simp [keyMem, h, ih, Ne.symm h]

theorem mem_of_getLastQ {α : Type} {l : List α} {a : α}
    (h : l.getLast? = some a) : a ∈ l := by
  obtain ⟨hne, rfl⟩ := List.mem_getLast?_eq_getLast (Option.mem_def.mpr h)
  exact List.getLast_mem hne

theorem mem_of_mem_unsubscribeIM {m : List Subscriber} {p : Nat} {x : Subscriber}
    (hx : x ∈ unsubscribeIM m p) : x ∈ m := by
  induction m with
  | nil => simp [unsubscribeIM] at hx
  | cons s rest ih =>
    by_cases h : s.ptr = p
    · simp only [unsubscribeIM, if_pos h] at hx
      match hlast : rest.getLast? with
      | none => rw [hlast] at hx; cases hx
      | some last =>
        rw [hlast] at hx
        rcases List.mem_cons.mp hx with h1 | h2
        · exact List.mem_cons_of_mem _ (h1 ▸ mem_of_getLastQ hlast)
        · exact List.mem_cons_of_mem _ (List.dropLast_subset _ h2)
    · simp only [unsubscribeIM, if_neg h] at hx
      rcases List.mem_cons.mp hx with h1 | h2
      · exact h1 ▸ List.mem_cons_self _ _
      · exact List.mem_cons_of_mem _ (ih h2)

theorem keys_unsubscribeIM_subset {m : List Subscriber} {p q : Nat}
    (hq : q ∈ (unsubscribeIM m p).map (fun s => s.ptr)) :
    q ∈ m.map (fun s => s.ptr) := by
  obtain ⟨x, hx, rfl⟩ := List.mem_map.mp hq
  exact List.mem_map_of_mem _ (mem_of_mem_unsubscribeIM hx)

theorem notMem_keys_unsubscribeIM {m : List Subscriber} {p : Nat}
    (hm : (m.map (fun s => s.ptr)).Nodup) :
    p ∉ (unsubscribeIM m p).map (fun s => s.ptr) := by
  induction m with
  | nil => simp [unsubscribeIM]
  | cons s rest ih =>
    simp only [List.map_cons, List.nodup_cons] at hm
    obtain ⟨hs, hrest⟩ := hm
    by_cases h : s.ptr = p
    · simp only [unsubscribeIM, if_pos h]
      match hlast : rest.getLast? with
      | none => simp
      | some last =>
        intro hmem
        rcases List.mem_cons.mp hmem with h1 | h2
        · exact hs (h ▸ h1 ▸ List.mem_map_of_mem _ (mem_of_getLastQ hlast))
        · obtain ⟨x, hx, hxp⟩ := List.mem_map.mp h2
          exact hs (h ▸ hxp ▸ List.mem_map_of_mem _ (List.dropLast_subset _ hx))
    · simp only [unsubscribeIM, if_neg h, List.map_cons, List.mem_cons]
      intro hmem
      rcases hmem with h1 | h2
      · exact h (h1 ▸ rfl)
      · exact ih hrest h2

theorem nodup_keys_unsubscribeIM {m : List Subscriber} {p : Nat}
    (hm : (m.map (fun s => s.ptr)).Nodup) :
    ((unsubscribeIM m p).map (fun s => s.ptr)).Nodup := by
  induction m with
  | nil => simp [unsubscribeIM]
  | cons s rest ih =>
    simp only [List.map_cons, List.nodup_cons] at hm
    obtain ⟨hs, hrest⟩ := hm
    by_cases h : s.ptr = p
    · simp only [unsubscribeIM, if_pos h]
      match hlast : rest.getLast? with
      | none => simp
      | some last =>
        have hsplit : rest.dropLast ++ [last] = rest :=
          List.dropLast_append_getLast? last (Option.mem_def.mpr hlast)
        have hperm : ((last :: rest.dropLast).map (fun s => s.ptr)).Perm
            (rest.map (fun s => s.ptr)) := by
          conv_rhs => rw [← hsplit]
          simp only [List.map_cons, List.map_append, List.map_nil]
          exact (List.perm_append_singleton _ _).symm
        exact hperm.nodup_iff.mpr hrest
    · simp only [unsubscribeIM, if_neg h, List.map_cons, List.nodup_cons]
      refine ⟨fun hcon => hs (keys_unsubscribeIM_subset hcon), ih hrest⟩

theorem keys_subscribeIM_of_mem (m : List Subscriber) (s : Subscriber)
    (h : keyMem m s.ptr = true) :
    (subscribeIM m s).map (fun t => t.ptr) = m.map (fun t => t.ptr) := by
  simp only [subscribeIM, if_pos h, List.map_map]
  apply List.map_congr_left
  intro t _
  by_cases ht : t.ptr = s.ptr
  · simp [ht]
  · simp [ht]

theorem keys_subscribeIM_of_not_mem (m : List Subscriber) (s : Subscriber)
    (h : ¬keyMem m s.ptr = true) :
    (subscribeIM m s).map (fun t => t.ptr)
      = m.map (fun t => t.ptr) ++ [s.ptr] := by
  simp [subscribeIM, h]

theorem nodup_keys_subscribeIM {m : List Subscriber} {s : Subscriber}
    (hm : (m.map (fun t => t.ptr)).Nodup) :
    ((subscribeIM m s).map (fun t => t.ptr)).Nodup := by
  by_cases h : keyMem m s.ptr = true
  · rw [keys_subscribeIM_of_mem m s h]; exact hm
  · rw [keys_subscribeIM_of_not_mem m s h]
    simp only [List.nodup_append, List.nodup_cons, List.nodup_nil]
    refine ⟨hm, ⟨by simp, trivial⟩, ?_⟩
    intro x hx hx'
    simp only [List.mem_cons, List.not_mem_nil, or_false] at hx'
    subst hx'
    exact h ((keyMem_iff m s.ptr).mpr hx)

theorem triggerSubscribersOrder_subset {m : List Subscriber} {q : Nat}
    (hq : q ∈ triggerSubscribersOrder m) : q ∈ m.map (fun s => s.ptr) := by
  simp only [triggerSubscribersOrder, List.mem_map] at hq ⊢
  obtain ⟨x, hx, rfl⟩ := hq
  exact ⟨x, List.mem_reverse.mp (List.mem_of_mem_filter hx), rfl⟩

theorem nodup_triggerSubscribersOrder {m : List Subscriber}
    (hm : (m.map (fun s => s.ptr)).Nodup) :
    (triggerSubscribersOrder m).Nodup := by
  have h1 : (m.reverse.map (fun s => s.ptr)).Nodup := by
    rw [List.map_reverse]
    exact (List.nodup_reverse).mpr hm
  exact h1.sublist ((List.filter_sublist _).map _)

theorem clearDependencies_nil (subs : Nat → List Subscriber) (cbPtr : Nat) :
    clearDependencies subs cbPtr [] = subs := rfl

theorem clearDependencies_cons (subs : Nat → List Subscriber) (cbPtr x : Nat)
    (rest : List Nat) :
    clearDependencies subs cbPtr (x :: rest)
      = clearDependencies
          (fun e => if e = x then unsubscribeIM (subs e) cbPtr else subs e)
          cbPtr rest := rfl

theorem clearDependencies_stable {subs : Nat → List Subscriber} {cbPtr : Nat}
    {deps : List Nat} {d : Nat}
    (h : cbPtr ∉ (subs d).map (fun s => s.ptr)) :
    cbPtr ∉ ((clearDependencies subs cbPtr deps d).map (fun s => s.ptr)) := by
  induction deps generalizing subs with
  | nil => exact h
  | cons x rest ih =>
    rw [clearDependencies_cons]
    apply ih
    by_cases hdx : d = x
    · simp only [hdx, if_pos rfl]
      exact fun hcon => (hdx ▸ h) (keys_unsubscribeIM_subset hcon)
    · simp only [if_neg hdx]
      exact h

theorem clearDependencies_removes {subs : Nat → List Subscriber} {cbPtr : Nat}
    {deps : List Nat} {d : Nat} (hd : d ∈ deps)
    (hnodup : ((subs d).map (fun s => s.ptr)).Nodup) :
    cbPtr ∉ ((clearDependencies subs cbPtr deps d).map (fun s => s.ptr)) := by
  induction deps generalizing subs with
  | nil => cases hd
  | cons x rest ih =>
    rw [clearDependencies_cons]
    by_cases hdx : d = x
    · subst hdx
      apply clearDependencies_stable
      simp only [if_pos rfl]
      exact notMem_keys_unsubscribeIM hnodup
    · rcases List.mem_cons.mp hd with h1 | h2
      · exact absurd h1 hdx
      · apply ih h2
        simpa only [if_neg hdx] using hnodup

theorem subscribeAll_nil (subs : Nat → List Subscriber) (cbPtr : Nat) :
    subscribeAll subs cbPtr [] = subs := rfl

theorem subscribeAll_cons (subs : Nat → List Subscriber) (cbPtr x : Nat)
    (rest : List Nat) :
    subscribeAll subs cbPtr (x :: rest)
      = subscribeAll
          (fun e => if e = x then subscribeIM (subs e) ⟨cbPtr, true, false⟩ else subs e)
          cbPtr rest := rfl

theorem subscribeAll_not_mem {subs : Nat → List Subscriber} {cbPtr : Nat}
    {deps : List Nat} {d : Nat} (hd : d ∉ deps) :
    subscribeAll subs cbPtr deps d = subs d := by
  induction deps generalizing subs with
  | nil => rfl
  | cons x rest ih =>
    rw [subscribeAll_cons]
    rw [ih (fun hc => hd (List.mem_cons_of_mem _ hc))]
    simp only [if_neg (fun hc : d = x => hd (hc ▸ List.mem_cons_self _ _))]

theorem disposeChildrenTrace_eq_join (l : List SScope) :
    disposeChildrenTrace l = (l.map SScope.disposeTrace).flatten := by
  induction l with
  | nil => rfl
  | cons c rest ih => simp [disposeChildrenTrace, ih]

theorem mem_disposeChildrenTrace {l : List SScope} {e : DEvent}
    (he : e ∈ disposeChildrenTrace l) : ∃ c ∈ l, e ∈ c.disposeTrace := by
  induction l with
  | nil => cases he
  | cons c rest ih =>
    rw [disposeChildrenTrace] at he
    rcases List.mem_append.mp he with h1 | h2
    · exact ⟨c, List.mem_cons_self _ _, h1⟩
    · obtain ⟨c', hc', he'⟩ := ih h2
      exact ⟨c', List.mem_cons_of_mem _ hc', he'⟩

theorem sizeOf_mem_children {c : SScope} {ch : List SScope}
    (hc : c ∈ ch) (ef cl cx ar : List Nat) :
    sizeOf c < sizeOf (SScope.mk ch ef cl cx ar) := by
  have h1 : sizeOf c < sizeOf ch := List.sizeOf_lt_of_mem hc
  simp only [SScope.mk.sizeOf_spec]
  omega

theorem disposeTrace_cleanup_untracked_aux :
    ∀ (n : Nat) (s : SScope), sizeOf s ≤ n →
      ∀ i b, DEvent.cleanupRun i b ∈ s.disposeTrace → b = false := by
  intro n
  induction n with
  | zero =>
    intro s hs
    cases s with
    | mk ch ef cl cx ar =>
      exfalso
      simp only [SScope.mk.sizeOf_spec] at hs
      omega
  | succ n ih =>
    intro s hs i b hmem
    cases s with
    | mk ch ef cl cx ar =>
      rw [SScope.disposeTrace] at hmem
      simp only [List.mem_append] at hmem
      rcases hmem with ((((h1 | h2) | h3) | h4) | h5)
      · obtain ⟨c, hc, he⟩ := mem_disposeChildrenTrace h1
        have hsz := sizeOf_mem_children hc ef cl cx ar
        have : sizeOf c ≤ n := by omega
        exact ih c this i b he
      · obtain ⟨x, _, hx⟩ := List.mem_map.mp h2
        cases hx
      · obtain ⟨x, _, hx⟩ := List.mem_map.mp h3
        cases hx
        rfl
      · obtain ⟨x, _, hx⟩ := List.mem_map.mp h4
        cases hx
      · obtain ⟨x, _, hx⟩ := List.mem_map.mp h5
        cases hx

theorem execTrigger_busy_body (bodies : Nat → List SAction)
    (subsOf : Nat → List Nat) (s c : Nat) (hsubs : subsOf s = [c]) :
    ∀ (acts : List SAction) (fuel : Nat) (busy : List Nat), c ∈ busy →
      (∀ a ∈ acts, a = SAction.read s ∨ a = SAction.write s) →
      execTrigger bodies subsOf fuel busy (Sum.inr acts) = some 0 := by
  intro acts
  induction acts with
  | nil => intro fuel busy _ _; rw [execTrigger.eq_def]
  | cons a rest ih =>
    intro fuel busy hbusy hacts
    have hrest : ∀ a ∈ rest, a = SAction.read s ∨ a = SAction.write s :=
      fun x hx => hacts x (List.mem_cons_of_mem _ hx)
    cases a with
    | read e =>
      rw [execTrigger.eq_def]
      exact ih fuel busy hbusy hrest
    | write e =>
      have he : e = s := by
        rcases hacts _ (List.mem_cons_self _ _) with h | h
        · cases h
        · cases h; rfl
      subst he
      rw [execTrigger.eq_def]
      simp only [hsubs, List.reverse_singleton]
      have hskip : execTrigger bodies subsOf fuel busy (Sum.inl [c]) = some 0 := by
        rw [execTrigger.eq_def]
        simp only [if_pos hbusy]
        rw [execTrigger.eq_def]
      rw [hskip, ih fuel busy hbusy hrest]

/-! ## Claim theorems -/

/-- C1: the claim says context lookup walks the ancestor chain, so providing
`i32 = 42` at the root makes the lookup inside a child scope return 42.  The
code does not do this: the loop variable `this` in `Scope::try_use_context`
is never advanced to `current.parent`, so on a child scope that does not
itself provide the type the loop re-examines the same scope forever.  With
the root providing `42` under type key `1` and the child providing nothing,
the loop fails to terminate within any number of iterations (first
conjunct), even though the value is right there on the parent (second
conjunct). -/
theorem c1_context_lookup_diverges (gas : Nat) :
    tryUseContextGas 1
        (some (CtxScope.mk [] (some (CtxScope.mk [(1, 42)] none)))) gas = none
      ∧ findContext (CtxScope.mk [(1, 42)] none).contexts 1 = some 42 := by
  constructor
  · induction gas with
    | zero => rfl
    | succ g ih =>
      rw [tryUseContextGas]
      simpa [CtxScope.contexts, findContext] using ih
  · rfl

/-- C2 (counterexample): the claim says arena disposal destroys entries in
reverse insertion order.  Allocating `1` then `2` and disposing runs the
destructors in the order `[1, 2]` - the insertion order, not its reverse
`[2, 1]`: the disposal loop iterates the vector from the front. -/
theorem c2_counterexample :
    ((((ScopeArena.mk []).alloc 1).alloc 2).dispose).1 = [1, 2]
      ∧ ((((ScopeArena.mk []).alloc 1).alloc 2).dispose).1 ≠ [2, 1] := by
  constructor <;> decide

/-- C2 (amended): for an arena holding values allocated in order
`v1, ..., vn`, `dispose()` runs the destructors in the same order
`v1, ..., vn` (insertion order, earlier-allocated first), empties the
container, and a second `dispose()` destroys nothing and is a no-op. -/
theorem c2_arena_dispose_forward_order (vs : List Nat) :
    ((vs.foldl ScopeArena.alloc ⟨[]⟩).dispose).1 = vs
      ∧ ((vs.foldl ScopeArena.alloc ⟨[]⟩).dispose).2.inner = []
      ∧ (((vs.foldl ScopeArena.alloc ⟨[]⟩).dispose).2.dispose)
          = ([], ⟨[]⟩) := by
  refine ⟨?_, rfl, rfl⟩
  simp [ScopeArena.dispose, foldl_alloc_inner]

/-- C3 (counterexample): the claim says a disposer called a second time is a
no-op that neither panics nor frees again.  The disposer closures are
`FnOnce` (a second call is ruled out by the type system rather than being a
no-op), and the body of the child-scope disposer removes its slot key from
the parent and `unwrap`s the result - re-running that body after the key is
gone panics on the `unwrap` instead of doing nothing.  First conjunct: the
first run removes and disposes the child.  Second conjunct: the same body on
the emptied map panics. -/
theorem c3_counterexample :
    childDisposer 0 [(0, SScope.mk [] [] [] [5] [])]
        = Except.ok ([], [DEvent.contextDrop 5])
      ∧ childDisposer 0 ([] : List (Nat × SScope))
        = Except.error "called Option::unwrap() on a None value" := by
  constructor <;> rfl

/-- C3 (amended): disposers are single-use closures, so a literal second
call cannot happen; the idempotence the runtime actually provides sits in
`Scope::dispose` itself (which every disposer calls, once explicitly and
once via `Drop`): disposing an already-disposed scope runs no destructor and
leaves the scope unchanged. -/
theorem c3_dispose_idempotent (s : SScope) :
    (SScope.dispose (SScope.dispose s).2).1 = []
      ∧ (SScope.dispose (SScope.dispose s).2).2 = (SScope.dispose s).2 := by
  constructor <;> rfl

/-- C4 (counterexample): the claim says that when the user callback panics,
the effect is popped from the execution stack before the panic propagates,
so the stack length after the aborted run equals the length before.  On an
empty stack, running the effect callback with a panicking user function
leaves the pushed entry on the stack: length 1 afterwards, not 0 - nothing
in the source pops the stack on the unwind path. -/
theorem c4_counterexample :
    (effectCallback 0 0 (Except.error ())
        { stack := [], cell := some [], subs := fun _ => [] }).stackOf.length = 1
      ∧ (1 : Nat) ≠ 0 := by
  exact ⟨rfl, by decide⟩

/-- C4 (amended): when the user callback panics, the effect is NOT popped
from the execution stack and its state is NOT returned to the shared cell:
the panic propagates with the pushed entry still on the stack (length one
more than before the run) and the cell still empty.  Only on normal
completion is the stack restored to its initial contents and the state
placed back into the cell. -/
theorem c4_effect_run_stack (ptr cbPtr : Nat) (st : CbState)
    (oldDeps : List Nat) (hcell : st.cell = some oldDeps) :
    (effectCallback ptr cbPtr (Except.error ()) st
        = RunResult.panicked
            { stack := st.stack ++ [ptr], cell := none,
              subs := clearDependencies st.subs cbPtr oldDeps }
      ∧ (effectCallback ptr cbPtr (Except.error ()) st).stackOf.length
          = st.stack.length + 1)
      ∧ ∀ reads : List Nat,
          (effectCallback ptr cbPtr (Except.ok reads) st).stackOf = st.stack
            ∧ (effectCallback ptr cbPtr (Except.ok reads) st).cellOf
                = some reads.dedup := by
  refine ⟨⟨?_, ?_⟩, ?_⟩
  · simp only [effectCallback, hcell]
  · simp only [effectCallback, hcell, RunResult.stackOf]
    simp
  · intro reads
    constructor
    · simp only [effectCallback, hcell, RunResult.stackOf]
      simp
    · simp only [effectCallback, hcell, RunResult.cellOf]

theorem c4_effect_run_stack_witness :
    ({ stack := [3], cell := some [7], subs := fun _ => [] } : CbState).cell
        = some [7]
      ∧ (effectCallback 2 9 (Except.error ())
          { stack := [3], cell := some [7], subs := fun _ => [] }).stackOf.length
          = ([3] : List Nat).length + 1 := by
  exact ⟨rfl, (c4_effect_run_stack 2 9
    { stack := [3], cell := some [7], subs := fun _ => [] } [7] rfl).1.2⟩

/-- C5: subscribers added in order `a, b, c` (all live, none busy) are
invoked by `trigger_subscribers` in reverse insertion order `c, b, a`
(first conjunct); on any emitter whose keys are duplicate-free each callback
identity is invoked at most once per trigger (second conjunct); and
`subscribe` keeps the key set duplicate-free, deduplicating by callback
identity (third conjunct). -/
theorem c5_reverse_order_notification (a b c : Nat)
    (hab : a ≠ b) (hac : a ≠ c) (hbc : b ≠ c) :
    triggerSubscribersOrder
        (subscribeIM (subscribeIM (subscribeIM [] ⟨a, true, false⟩)
          ⟨b, true, false⟩) ⟨c, true, false⟩) = [c, b, a]
      ∧ (∀ m : List Subscriber, (m.map (fun s => s.ptr)).Nodup →
          (triggerSubscribersOrder m).Nodup)
      ∧ (∀ (m : List Subscriber) (s : Subscriber),
          (m.map (fun t => t.ptr)).Nodup →
          ((subscribeIM m s).map (fun t => t.ptr)).Nodup) := by
  refine ⟨?_, fun m hm => nodup_triggerSubscribersOrder hm,
    fun m s hm => nodup_keys_subscribeIM hm⟩
  simp [subscribeIM, keyMem, hab, hac, hbc, Ne.symm hab, Ne.symm hac,
    Ne.symm hbc, triggerSubscribersOrder]

theorem c5_reverse_order_notification_witness :
    ((0 : Nat) ≠ 1 ∧ (0 : Nat) ≠ 2 ∧ (1 : Nat) ≠ 2)
      ∧ triggerSubscribersOrder
          (subscribeIM (subscribeIM (subscribeIM [] ⟨0, true, false⟩)
            ⟨1, true, false⟩) ⟨2, true, false⟩) = [2, 1, 0] := by
  exact ⟨⟨by decide, by decide, by decide⟩,
    (c5_reverse_order_notification 0 1 2 (by decide) (by decide)
      (by decide)).1⟩

/-- C6: on a re-execution of the effect whose user function records the
reads `reads`, the run completes with the shared cell holding exactly the
emitters tracked during that run (conjuncts two and three); the previous
dependency set is cleared - the effect unsubscribed by identity from every
prior emitter - in the subscriber state the user callback runs against
(conjunct four); and an emitter that was a dependency before but was not
read in the latest run no longer invokes the effect when triggered
(conjunct five). -/
theorem c6_dependency_renewal (ptr cbPtr : Nat) (st : CbState)
    (oldDeps reads : List Nat)
    (hcell : st.cell = some oldDeps)
    (hnodup : ∀ d, ((st.subs d).map (fun s => s.ptr)).Nodup) :
    ∃ st', effectCallback ptr cbPtr (Except.ok reads) st = RunResult.ok st'
      ∧ st'.cell = some reads.dedup
      ∧ (∀ x, x ∈ reads.dedup ↔ x ∈ reads)
      ∧ (∀ d ∈ oldDeps,
          cbPtr ∉ ((clearDependencies st.subs cbPtr oldDeps d).map
            (fun s => s.ptr)))
      ∧ (∀ d ∈ oldDeps, d ∉ reads →
          cbPtr ∉ triggerSubscribersOrder (st'.subs d)) := by
  refine ⟨CbState.mk ((st.stack ++ [ptr]).dropLast) (some reads.dedup)
    (subscribeAll (clearDependencies st.subs cbPtr oldDeps) cbPtr reads.dedup),
    ?_, rfl, fun x => List.mem_dedup, ?_, ?_⟩
  · simp only [effectCallback, hcell]
  · exact fun d hd => clearDependencies_removes hd (hnodup d)
  · intro d hd hdr hcon
    have h1 : d ∉ reads.dedup := fun hc => hdr (List.mem_dedup.mp hc)
    simp only [subscribeAll_not_mem h1] at hcon
    exact clearDependencies_removes hd (hnodup d)
      (triggerSubscribersOrder_subset hcon)

theorem c6_dependency_renewal_witness :
    (({ stack := [], cell := some [3], subs := fun _ => [⟨7, true, false⟩] }
        : CbState).cell = some [3])
      ∧ (∀ d : Nat, ((((fun _ => [⟨7, true, false⟩]) : Nat → List Subscriber) d).map
          (fun s => s.ptr)).Nodup)
      ∧ ∃ st', effectCallback 0 7 (Except.ok [])
            { stack := [], cell := some [3],
              subs := fun _ => [⟨7, true, false⟩] } = RunResult.ok st'
          ∧ st'.cell = some ([] : List Nat).dedup
          ∧ (∀ x, x ∈ ([] : List Nat).dedup ↔ x ∈ ([] : List Nat))
          ∧ (∀ d ∈ [3],
              7 ∉ ((clearDependencies
                (fun _ => [⟨7, true, false⟩]) 7 [3] d).map (fun s => s.ptr)))
          ∧ (∀ d ∈ [3], d ∉ ([] : List Nat) →
              7 ∉ triggerSubscribersOrder (st'.subs d)) := by
  refine ⟨rfl, fun d => by simp, ?_⟩
  exact c6_dependency_renewal 0 7
    { stack := [], cell := some [3], subs := fun _ => [⟨7, true, false⟩] }
    [3] [] rfl (fun d => by simp)

/-- C7: an effect whose body only reads and writes the very signal it
subscribes to does not recurse when the signal is triggered: the trigger
cycle finishes within any callback nesting depth of at least 1 and invokes
the callback exactly once - the nested trigger fired by the write inside the
body finds the callback cell already borrowed and skips it. -/
theorem c7_reentrancy_terminates (bodies : Nat → List SAction)
    (subsOf : Nat → List Nat) (s c : Nat) (fuel : Nat)
    (hsubs : subsOf s = [c])
    (hbody : ∀ a ∈ bodies c, a = SAction.read s ∨ a = SAction.write s)
    (hfuel : 1 ≤ fuel) :
    execTrigger bodies subsOf fuel [] (Sum.inl (subsOf s).reverse)
      = some 1 := by
  rw [hsubs, List.reverse_singleton]
  obtain ⟨fuel', rfl⟩ : ∃ k, fuel = k + 1 := ⟨fuel - 1, by omega⟩
  rw [execTrigger.eq_def]
  simp only [List.not_mem_nil, if_false]
  rw [execTrigger_busy_body bodies subsOf s c hsubs (bodies c) fuel' [c]
    (List.mem_singleton_self c) hbody]
  rw [execTrigger.eq_def]

theorem c7_reentrancy_terminates_witness :
    ((fun _ => [5] : Nat → List Nat) 0 = [5])
      ∧ (∀ a ∈ ((fun _ => [SAction.read 0, SAction.write 0])
          : Nat → List SAction) 5,
          a = SAction.read 0 ∨ a = SAction.write 0)
      ∧ (1 : Nat) ≤ 2
      ∧ execTrigger (fun _ => [SAction.read 0, SAction.write 0])
          (fun _ => [5]) 2 []
          (Sum.inl ((fun _ => [5] : Nat → List Nat) 0).reverse) = some 1 := by
  refine ⟨rfl, by decide, by decide, ?_⟩
  exact c7_reentrancy_terminates (fun _ => [SAction.read 0, SAction.write 0])
    (fun _ => [5]) 0 5 2 rfl (by decide) (by decide)

/-- C8: disposal of a scope first processes the child scopes (each disposed
completely, i.e. depth-first, in order), then drops the effects, then runs
the cleanup callbacks, then destroys the context values, and destroys the
arena entries last (first conjunct, the trace decomposition); and every
cleanup event anywhere in a disposal trace ran with dependency tracking
disabled (second conjunct). -/
theorem c8_disposal_order :
    (∀ (ch : List SScope) (ef cl cx ar : List Nat),
        (SScope.mk ch ef cl cx ar).disposeTrace
          = (ch.map SScope.disposeTrace).flatten
            ++ ef.map DEvent.effectDrop
            ++ cl.map (fun i => DEvent.cleanupRun i false)
            ++ cx.map DEvent.contextDrop
            ++ ar.map DEvent.arenaDrop)
      ∧ ∀ (s : SScope) (i : Nat) (b : Bool),
          DEvent.cleanupRun i b ∈ s.disposeTrace → b = false := by
  constructor
  · intro ch ef cl cx ar
    rw [SScope.disposeTrace, disposeChildrenTrace_eq_join]
  · intro s i b hmem
    exact disposeTrace_cleanup_untracked_aux (sizeOf s) s le_rfl i b hmem

/-- C9: `set_silent(v)` replaces the stored value - a subsequent `get` or
`get_untracked` returns `v` - and invokes no subscriber callback; likewise
`take_silent()` returns the old value, leaves the default behind, and
invokes no subscriber callback; so no dependent effect, memo or selector is
re-run by a silent write. -/
theorem c9_silent_writes_do_not_notify {T : Type} [Inhabited T]
    (s : SignalS T) (v : T) :
    ((s.setSilent v).1.get = v
      ∧ (s.setSilent v).1.getUntracked = v
      ∧ (s.setSilent v).2 = [])
    ∧ (s.takeSilent.1 = s.value
      ∧ s.takeSilent.2.1.get = (default : T)
      ∧ s.takeSilent.2.2 = []) := by
  exact ⟨⟨rfl, rfl, rfl⟩, rfl, rfl, rfl⟩

/-- C10: on a triggered update of a selector built with
`create_selector_with(f, eq_f)` where the comparison of the fresh value
against the stored one is false, the effect body evaluates `f` twice and
stores the result of the second evaluation (first conjunct); `create_memo`
uses the constantly-false comparison, so every triggered update of a memo
evaluates `f` twice and stores the second result (second conjunct). -/
theorem c10_memo_double_evaluation {U : Type} (f : Nat → U)
    (eqF : U → U → Bool) (st : SelState U) (old : U)
    (hstored : st.stored = some old)
    (hneq : eqF (f st.evals) old = false) :
    selectorEffectBody f eqF st
        = { stored := some (f (st.evals + 1)), evals := st.evals + 2 }
      ∧ ∀ (st2 : SelState U) (old2 : U), st2.stored = some old2 →
          memoEffectBody f st2
            = { stored := some (f (st2.evals + 1)), evals := st2.evals + 2 } := by
  constructor
  · simp [selectorEffectBody, hstored, hneq]
  · intro st2 old2 h2
    simp [memoEffectBody, selectorEffectBody, h2]

theorem c10_memo_double_evaluation_witness :
    (({ stored := some 5, evals := 0 } : SelState Nat).stored = some 5)
      ∧ ((fun x y => x == y) ((fun n => n) 0) 5 = false)
      ∧ selectorEffectBody (fun n => n) (fun x y => x == y)
          { stored := some 5, evals := 0 }
          = { stored := some ((fun n : Nat => n) (0 + 1)), evals := 0 + 2 } := by
  refine ⟨rfl, by decide, ?_⟩
  exact (c10_memo_double_evaluation (fun n => n) (fun x y => x == y)
    { stored := some 5, evals := 0 } 5 rfl (by decide)).1
